import Mathlib

/-!
Verification development for the secure-logchain repository.

Part 1 models the retrieval path of the Express server (`getLogsHandler` in
server.js): the coarse downward probe, the binary-search refinement, the
forward-scan fallback, the backwards tail fetch and the JSON response.

Part 2 models the ingestion pipeline of services/stream-logs.js:
`queueLogForSending`, `processLogQueue` and `sendLogToBlockchain`, with the
daily quota, the send-rate gate and the availability / error-throttle state.

Every ledger call `contract.methods.logs(i).call()` is modelled by a function
`read : Int -> ReadOutcome`.  A call either returns an entry, or throws
because the index is out of bounds of the contract's `logs` array, or throws
because the node is unreachable (a connectivity-class failure).  The source
wraps each call in its own try/catch, so both kinds of exception land in the
same catch block.
-/

/-- One element of the contract's `logs` array (struct LogEntry in
SecureLog.sol: message, sender, timestamp). -/
structure LogEntry where
  message : String
  sender : String
  timestamp : Nat
deriving DecidableEq, Repr

/-- Result of one `contract.methods.logs(i).call()`:
either the call returns an entry, or it throws because `i` is out of bounds
of the on-chain array, or it throws because the ledger node is unreachable. -/
inductive ReadOutcome where
  | entry (e : LogEntry)
  | oob
  | connErr
deriving DecidableEq, Repr

/-- Truth value of the JS guard `testLog && testLog.message`: the call must
have returned an entry (not thrown), and the message must be non-empty
(an empty string is falsy in JS).  Both kinds of thrown exception are caught
by the surrounding catch block, so they also yield `false` here. -/
def probeOk : ReadOutcome → Bool
  | .entry e => e.message != ""
  | .oob => false
  | .connErr => false

/-- Coarse downward probe, server.js lines 450-460:
`for (let testIndex = 10000; testIndex >= 0; testIndex -= 500)` probing each
index, stopping at the first populated one; a thrown probe is caught and the
loop continues.  Returns the found upper bound (or -1) together with the
number of ledger calls issued.  The fuel argument only bounds the number of
loop iterations; 22 iterations cover the whole range 10000,9500,...,0 plus
the final failing loop test. -/
def probeDown (read : Int → ReadOutcome) : Nat → Int → Int × Nat
  | 0, _ => (-1, 0)
  | fuel + 1, testIndex =>
    if 0 ≤ testIndex then
      if probeOk (read testIndex) then (testIndex, 1)
      else
        let r := probeDown read fuel (testIndex - 500)
        (r.1, r.2 + 1)
    else (-1, 0)

/-- The coarse phase as run by the handler: start at the configured ceiling
10000. -/
def findUpperBound (read : Int → ReadOutcome) : Int × Nat :=
  probeDown read 22 10000

/-- Binary-search refinement, server.js lines 468-482:
`while (low <= high) { mid = Math.floor((low+high)/2); ... }`; a populated
mid records `highestIndex = mid` and searches higher, an absent or throwing
mid searches lower.  Lean's `Int` division by a positive constant is floor
division, matching `Math.floor`.  Returns the final `highestIndex` and the
number of ledger calls.  Each iteration shrinks `high + 1 - low` by at least
one, so fuel 1002 covers the initial window of size 1001. -/
def refineSearch (read : Int → ReadOutcome) : Nat → Int → Int → Int → Int × Nat
  | 0, _, _, best => (best, 0)
  | fuel + 1, low, high, best =>
    if low ≤ high then
      let mid := (low + high) / 2
      if probeOk (read mid) then
        let r := refineSearch read fuel (mid + 1) high mid
        (r.1, r.2 + 1)
      else
        let r := refineSearch read fuel low (mid - 1) best
        (r.1, r.2 + 1)
    else (best, 0)

/-- Forward-scan fallback, server.js lines 486-498: when no coarse probe
succeeded, `for (let i = 0; i < 5000; i++)` reads index i; a populated read
records `highestIndex = i`, anything else (empty message or a thrown call)
breaks out of the loop. -/
def scanForward (read : Int → ReadOutcome) : Nat → Int → Int → Int × Nat
  | 0, _, best => (best, 0)
  | fuel + 1, i, best =>
    if i < 5000 then
      if probeOk (read i) then
        let r := scanForward read fuel (i + 1) i
        (r.1, r.2 + 1)
      else (best, 1)
    else (best, 0)

/-- Index-discovery phase of `getLogsHandler` (server.js lines 443-499):
coarse probe, then binary refinement over `[upperBound, upperBound + 1000]`
when an upper bound was found, otherwise the forward scan from 0.
`highestIndex` starts at -1.  Returns the discovered highest index and the
total number of ledger calls issued. -/
def locateHighestIndex (read : Int → ReadOutcome) : Int × Nat :=
  let ub := findUpperBound read
  if 0 ≤ ub.1 then
    let r := refineSearch read 1002 ub.1 (ub.1 + 1000) (-1)
    (r.1, ub.2 + r.2)
  else
    let r := scanForward read 5001 0 (-1)
    (r.1, ub.2 + r.2)

/-- One element of the `formattedLogs` array built by the handler
(server.js lines 509-514): index, message, sender, `timestamp.toString()`. -/
structure FormattedLog where
  index : Int
  message : String
  sender : String
  timestamp : String
deriving DecidableEq, Repr

/-- The object pushed for a populated read at index i. -/
def formatLog (i : Int) (e : LogEntry) : FormattedLog :=
  ⟨i, e.message, e.sender, toString e.timestamp⟩

/-- Backwards tail fetch, server.js lines 505-520:
`for (let i = endIndex; i >= startIndex && i >= 0; i--)`; a populated read is
pushed, an empty message is skipped, a thrown read is caught and skipped.
Fuel 101 covers the at most 100 iterations plus the final loop test. -/
def fetchTailLoop (read : Int → ReadOutcome) :
    Nat → Int → Int → List FormattedLog → List FormattedLog
  | 0, _, _, acc => acc
  | fuel + 1, i, startIndex, acc =>
    if startIndex ≤ i ∧ 0 ≤ i then
      match read i with
      | .entry e =>
        if e.message != "" then
          fetchTailLoop read fuel (i - 1) startIndex (acc ++ [formatLog i e])
        else
          fetchTailLoop read fuel (i - 1) startIndex acc
      | _ => fetchTailLoop read fuel (i - 1) startIndex acc
    else acc

/-- Tail fetch for a discovered highest index h (server.js lines 501-520):
`startIndex = Math.max(0, highestIndex - 99)`, `endIndex = highestIndex`. -/
def fetchLatest (read : Int → ReadOutcome) (h : Int) : List FormattedLog :=
  fetchTailLoop read 101 h (max 0 (h - 99)) []

/-- The JSON body returned by `getLogsHandler` on its primary path
(server.js lines 548-553). -/
structure LogsResponse where
  success : Bool
  count : Int
  displayed : Nat
  logs : List FormattedLog
deriving DecidableEq, Repr

/-- The primary path of `getLogsHandler` (server.js lines 435-553): discover
the highest index, fetch the latest logs backwards, `slice(0, 100)`, and
report `count = highestIndex + 1`.  Every individual ledger call sits inside
its own try/catch, so no read outcome can throw past this path; the
`getLogs()` bulk fallback in the outer catch is unreachable from read
outcomes and is not modelled. -/
def getLogsHandler (read : Int → ReadOutcome) : LogsResponse :=
  let h := (locateHighestIndex read).1
  let limited := (fetchLatest read h).take 100
  ⟨true, h + 1, limited.length, limited⟩

/-- A dense ledger whose entries occupy exactly the indices 0..k, every
message non-empty; any other index is out of bounds. -/
def denseRead (k : Int) : Int → ReadOutcome := fun i =>
  if 0 ≤ i ∧ i ≤ k then .entry ⟨"m", "s", 0⟩ else .oob

/-- An empty ledger: every read throws out-of-bounds. -/
def emptyRead : Int → ReadOutcome := fun _ => .oob

/-- A totally unreachable ledger: every read throws a connectivity error. -/
def downRead : Int → ReadOutcome := fun _ => .connErr

/-- Replace every connectivity-class failure of a ledger by a plain
out-of-bounds miss.  Used to state that the handler cannot distinguish the
two. -/
def maskConnAsAbsent (read : Int → ReadOutcome) : Int → ReadOutcome := fun i =>
  match read i with
  | .connErr => .oob
  | o => o

example : probeOk (denseRead 5 3) = true := by decide
example : (locateHighestIndex emptyRead).1 = -1 := by decide
example : (locateHighestIndex (denseRead 7)).1 = 7 := by decide
example : (locateHighestIndex (denseRead 1200)).1 = 1200 := by decide
example : (locateHighestIndex (denseRead 11001)).1 = 11000 := by decide
example : (fetchLatest (denseRead 3) 3).length = 4 := by decide

/-! ### Helper lemmas for the retrieval path -/

/-- On a dense ledger, a probe succeeds exactly on the occupied indices. -/
theorem probeOk_denseRead (k i : Int) :
    probeOk (denseRead k i) = true ↔ (0 ≤ i ∧ i ≤ k) := by
  unfold denseRead
  by_cases h : 0 ≤ i ∧ i ≤ k
  · rw [if_pos h]
    exact iff_of_true (by decide) h
  · rw [if_neg h]
    exact iff_of_false (by decide) h

/-- Masking connectivity errors does not change any probe's truth value. -/
theorem probeOk_maskConnAsAbsent (read : Int → ReadOutcome) (i : Int) :
    probeOk (maskConnAsAbsent read i) = probeOk (read i) := by
  unfold maskConnAsAbsent
  cases read i <;> rfl

/-- Unfolding equation for one iteration of the coarse probe loop. -/
theorem probeDown_succ (read : Int → ReadOutcome) (fuel : Nat) (t : Int) :
    probeDown read (fuel + 1) t =
      if 0 ≤ t then
        if probeOk (read t) then (t, 1)
        else ((probeDown read fuel (t - 500)).1, (probeDown read fuel (t - 500)).2 + 1)
      else (-1, 0) := rfl

/-- Coarse probe on a non-empty dense ledger, generalized over the starting
index t (a multiple of the stride 500): the probe always finds an occupied
index; it returns t itself when t is occupied, and otherwise lands within
one stride below the highest occupied index k. -/
theorem probeDown_denseRead (k : Int) (hk : 0 ≤ k) :
    ∀ (fuel : Nat) (t : Int), 0 ≤ t → t % 500 = 0 → t / 500 + 2 ≤ fuel →
      0 ≤ (probeDown (denseRead k) fuel t).1 ∧
      (probeDown (denseRead k) fuel t).1 ≤ k ∧
      (t ≤ k → (probeDown (denseRead k) fuel t).1 = t) ∧
      (k < t → k < (probeDown (denseRead k) fuel t).1 + 500) := by
  intro fuel
  induction fuel with
  | zero => intro t ht hmod hfuel; omega
  | succ f ih =>
    intro t ht hmod hfuel
    rw [probeDown_succ, if_pos ht]
    by_cases hocc : t ≤ k
    · have h1 : probeOk (denseRead k t) = true := (probeOk_denseRead k t).mpr ⟨ht, hocc⟩
      rw [if_pos h1]
      exact ⟨ht, hocc, fun _ => rfl, by omega⟩
    · have h1 : probeOk (denseRead k t) = false := by
        rw [← Bool.not_eq_true, probeOk_denseRead]; omega
      rw [h1, if_neg (by simp)]
      have ht500 : 500 ≤ t := by omega
      obtain ⟨g1, g2, g3, g4⟩ := ih (t - 500) (by omega) (by omega) (by omega)
      refine ⟨g1, g2, by omega, fun _ => ?_⟩
      by_cases hlow : t - 500 ≤ k
      · rw [g3 hlow]; omega
      · exact g4 (by omega)

/-- Division midpoint bounds for the binary search. -/
theorem mid_bounds (low high : Int) (h : low ≤ high) :
    low ≤ (low + high) / 2 ∧ (low + high) / 2 ≤ high := by omega

/-- Binary-search refinement is exact on a dense ledger: starting from any
window that brackets the highest occupied index k, with the loop invariant
on `best`, the search converges to k. -/
theorem refineSearch_denseRead (k : Int) :
    ∀ (fuel : Nat) (low high best : Int),
      (high + 1 - low).toNat < fuel →
      0 ≤ low → low ≤ k + 1 → k ≤ high →
      (best = low - 1 ∨ (best ≤ k ∧ low ≤ k)) →
      (refineSearch (denseRead k) fuel low high best).1 = k := by
  intro fuel
  induction fuel with
  | zero => intro low high best hsz; omega
  | succ f ih =>
    intro low high best hsz h0 hlow hhigh hbest
    by_cases hlh : low ≤ high
    · have hmid := mid_bounds low high hlh
      set mid := (low + high) / 2 with hmid_def
      by_cases hocc : probeOk (denseRead k mid) = true
      · have hmk : mid ≤ k := ((probeOk_denseRead k mid).mp hocc).2
        have : (refineSearch (denseRead k) (f + 1) low high best) =
            (let r := refineSearch (denseRead k) f (mid + 1) high mid
             (r.1, r.2 + 1)) := by
          simp only [refineSearch, if_pos hlh, ← hmid_def, hocc, if_true]
        rw [this]
        exact ih (mid + 1) high mid (by omega) (by omega) (by omega) hhigh
          (Or.inl (by ring))
      · have hmk : k < mid := by
          rw [probeOk_denseRead] at hocc; omega
        have : (refineSearch (denseRead k) (f + 1) low high best) =
            (let r := refineSearch (denseRead k) f low (mid - 1) best
             (r.1, r.2 + 1)) := by
          simp only [refineSearch, if_pos hlh, ← hmid_def, hocc, if_false,
            Bool.false_eq_true]
        rw [this]
        exact ih low (mid - 1) best (by omega) h0 hlow (by omega) hbest
    · have hexit : low = k + 1 := by omega
      simp only [refineSearch, if_neg hlh]
      omega

/-- Index discovery is exact on any non-empty dense ledger whose highest
index stays within the coarse ceiling 10000 plus the refinement window
1000. -/
theorem locateHighestIndex_denseRead (k : Int) (hk : 0 ≤ k) (hk2 : k ≤ 11000) :
    (locateHighestIndex (denseRead k)).1 = k := by
  obtain ⟨g1, g2, g3, g4⟩ :=
    probeDown_denseRead k hk 22 10000 (by omega) (by omega) (by omega)
  unfold locateHighestIndex findUpperBound
  rw [if_pos g1]
  refine refineSearch_denseRead k 1002 _ _ _ (by omega) g1 (by omega) ?_
    (Or.inr ⟨by omega, g2⟩)
  by_cases ht : (10000 : Int) ≤ k
  · rw [g3 ht]; omega
  · have := g4 (by omega); omega

/-- The coarse probe issues at most one ledger call per loop iteration. -/
theorem probeDown_count_le (read : Int → ReadOutcome) :
    ∀ (fuel : Nat) (t : Int), (probeDown read fuel t).2 ≤ fuel := by
  intro fuel
  induction fuel with
  | zero => intro t; simp [probeDown]
  | succ f ih =>
    intro t
    rw [probeDown_succ]
    by_cases h0 : 0 ≤ t
    · rw [if_pos h0]
      by_cases hp : probeOk (read t) = true
      · rw [if_pos hp]; simp
      · rw [if_neg hp]
        have := ih (t - 500)
        simp only []
        omega
    · rw [if_neg h0]; simp

/-- Unfolding equation for one iteration of the binary-search loop. -/
theorem refineSearch_succ (read : Int → ReadOutcome) (fuel : Nat)
    (low high best : Int) :
    refineSearch read (fuel + 1) low high best =
      if low ≤ high then
        if probeOk (read ((low + high) / 2)) then
          ((refineSearch read fuel ((low + high) / 2 + 1) high ((low + high) / 2)).1,
           (refineSearch read fuel ((low + high) / 2 + 1) high ((low + high) / 2)).2 + 1)
        else
          ((refineSearch read fuel low ((low + high) / 2 - 1) best).1,
           (refineSearch read fuel low ((low + high) / 2 - 1) best).2 + 1)
      else (best, 0) := rfl

/-- An already-empty window issues no ledger call. -/
theorem refineSearch_count_zero (read : Int → ReadOutcome) :
    ∀ (fuel : Nat) (low high best : Int), high < low →
      (refineSearch read fuel low high best).2 = 0 := by
  intro fuel low high best h
  cases fuel with
  | zero => rfl
  | succ f => rw [refineSearch_succ, if_neg (by omega)]

/-- The binary search issues a logarithmic number of ledger calls: a window
of size at most `2 ^ n` costs at most `n + 1` calls, for any ledger. -/
theorem refineSearch_count_le (read : Int → ReadOutcome) :
    ∀ (n : Nat) (fuel : Nat) (low high best : Int),
      high + 1 - low ≤ 2 ^ n →
      (refineSearch read fuel low high best).2 ≤ n + 1 := by
  intro n
  induction n with
  | zero =>
    intro fuel low high best hsz
    cases fuel with
    | zero => simp [refineSearch]
    | succ f =>
      rw [refineSearch_succ]
      by_cases hlh : low ≤ high
      · have hd : low = high := by omega
        rw [if_pos hlh]
        have hmid : (low + high) / 2 = low := by omega
        by_cases hp : probeOk (read ((low + high) / 2)) = true
        · rw [if_pos hp]
          have := refineSearch_count_zero read f ((low + high) / 2 + 1) high
            ((low + high) / 2) (by omega)
          omega
        · rw [if_neg hp]
          have := refineSearch_count_zero read f low ((low + high) / 2 - 1) best
            (by omega)
          omega
      · rw [if_neg hlh]; simp
  | succ m ih =>
    intro fuel low high best hsz
    cases fuel with
    | zero => simp [refineSearch]
    | succ f =>
      rw [refineSearch_succ]
      by_cases hlh : low ≤ high
      · rw [if_pos hlh]
        have hpow : (2 : Int) ^ (m + 1) = 2 * 2 ^ m := by ring
        have hpos : (0 : Int) < 2 ^ m := pow_pos (by omega) m
        by_cases hp : probeOk (read ((low + high) / 2)) = true
        · rw [if_pos hp]
          have := ih f ((low + high) / 2 + 1) high ((low + high) / 2) (by omega)
          omega
        · rw [if_neg hp]
          have := ih f low ((low + high) / 2 - 1) best (by omega)
          omega
      · rw [if_neg hlh]; simp

/-! ### Connectivity errors are indistinguishable from absence -/

/-- The coarse probe behaves identically when every connectivity failure is
replaced by a plain miss: its catch block swallows both. -/
theorem probeDown_mask (read : Int → ReadOutcome) :
    ∀ (fuel : Nat) (t : Int),
      probeDown (maskConnAsAbsent read) fuel t = probeDown read fuel t := by
  intro fuel
  induction fuel with
  | zero => intro t; rfl
  | succ f ih =>
    intro t
    rw [probeDown_succ, probeDown_succ, probeOk_maskConnAsAbsent, ih]

/-- The binary search likewise cannot tell a connectivity failure from an
absent index: both take the `high = mid - 1` branch. -/
theorem refineSearch_mask (read : Int → ReadOutcome) :
    ∀ (fuel : Nat) (low high best : Int),
      refineSearch (maskConnAsAbsent read) fuel low high best =
        refineSearch read fuel low high best := by
  intro fuel
  induction fuel with
  | zero => intro low high best; rfl
  | succ f ih =>
    intro low high best
    rw [refineSearch_succ, refineSearch_succ, probeOk_maskConnAsAbsent, ih, ih]

/-- Unfolding equation for one iteration of the fallback forward scan. -/
theorem scanForward_succ (read : Int → ReadOutcome) (fuel : Nat) (i best : Int) :
    scanForward read (fuel + 1) i best =
      if i < 5000 then
        if probeOk (read i) then
          ((scanForward read fuel (i + 1) i).1, (scanForward read fuel (i + 1) i).2 + 1)
        else (best, 1)
      else (best, 0) := rfl

/-- The fallback scan treats a connectivity failure as the end of the
ledger. -/
theorem scanForward_mask (read : Int → ReadOutcome) :
    ∀ (fuel : Nat) (i best : Int),
      scanForward (maskConnAsAbsent read) fuel i best =
        scanForward read fuel i best := by
  intro fuel
  induction fuel with
  | zero => intro i best; rfl
  | succ f ih =>
    intro i best
    rw [scanForward_succ, scanForward_succ, probeOk_maskConnAsAbsent, ih]

/-- The tail fetch skips a connectivity failure exactly as it skips an
absent index. -/
theorem fetchTailLoop_mask (read : Int → ReadOutcome) :
    ∀ (fuel : Nat) (i s : Int) (acc : List FormattedLog),
      fetchTailLoop (maskConnAsAbsent read) fuel i s acc =
        fetchTailLoop read fuel i s acc := by
  intro fuel
  induction fuel with
  | zero => intro i s acc; rfl
  | succ f ih =>
    intro i s acc
    show (if s ≤ i ∧ 0 ≤ i then _ else acc) = (if s ≤ i ∧ 0 ≤ i then _ else acc)
    by_cases hc : s ≤ i ∧ 0 ≤ i
    · rw [if_pos hc, if_pos hc]
      have hmask : maskConnAsAbsent read i = match read i with
        | .connErr => .oob
        | o => o := rfl
      cases hr : read i with
      | entry e => rw [hmask, hr]; exact by cases he : e.message != "" <;> simp [he, ih]
      | oob => rw [hmask, hr]; exact ih _ _ _
      | connErr => rw [hmask, hr]; exact ih _ _ _
    · rw [if_neg hc, if_neg hc]

/-- The whole retrieval handler returns exactly the same response whether a
read fails with a connectivity error or the index simply does not exist:
the per-call catch blocks erase the distinction everywhere. -/
theorem getLogsHandler_mask (read : Int → ReadOutcome) :
    getLogsHandler (maskConnAsAbsent read) = getLogsHandler read := by
  unfold getLogsHandler fetchLatest locateHighestIndex findUpperBound
  simp only [probeDown_mask, refineSearch_mask, scanForward_mask,
    fetchTailLoop_mask]

/-! ### Characterization of the tail fetch -/

/-- Spec-side definition (from the TailReader contract in the spec): the
index sequence `highestIndex, highestIndex - 1, ..., max(0, highestIndex - 99)`,
newest first. -/
def specTailIndices (h : Int) : List Int :=
  (List.range ((h + 1 - max 0 (h - 99)).toNat)).map (fun j => h - Int.ofNat j)

/-- What one populated read contributes to the result list: the formatted
entry for a read that returns a non-empty message, nothing for an empty
message or a thrown read. -/
def readFormatted (read : Int → ReadOutcome) (i : Int) : Option FormattedLog :=
  match read i with
  | .entry e => if e.message != "" then some (formatLog i e) else none
  | _ => none

/-- The backwards fetch loop is exactly a filterMap of `readFormatted` over
the descending index sequence of its iteration space. -/
theorem fetchTailLoop_eq_filterMap (read : Int → ReadOutcome) :
    ∀ (fuel : Nat) (i s : Int) (acc : List FormattedLog),
      (i + 1 - max s 0).toNat < fuel →
      fetchTailLoop read fuel i s acc =
        acc ++ ((List.range ((i + 1 - max s 0).toNat)).map
          (fun j => i - Int.ofNat j)).filterMap (readFormatted read) := by
  intro fuel
  induction fuel with
  | zero => intro i s acc hsz; omega
  | succ f ih =>
    intro i s acc hsz
    by_cases hc : s ≤ i ∧ 0 ≤ i
    · have hm : (i + 1 - max s 0).toNat = ((i - 1) + 1 - max s 0).toNat + 1 := by omega
      have hrange : (List.range ((i + 1 - max s 0).toNat)).map
          (fun j => i - Int.ofNat j) =
          i :: (List.range (((i - 1) + 1 - max s 0).toNat)).map
            (fun j => (i - 1) - Int.ofNat j) := by
        rw [hm, List.range_succ_eq_map, List.map_cons, List.map_map]
        refine congrArg₂ _ (by simp) (List.map_congr_left ?_)
        intro a _
        simp only [Function.comp_apply, Int.ofNat_eq_natCast, Nat.cast_succ]
        ring
      have hf : ((i - 1) + 1 - max s 0).toNat < f := by omega
      rw [hrange]
      show (if s ≤ i ∧ 0 ≤ i then _ else acc) = _
      rw [if_pos hc]
      cases hr : read i with
      | entry e =>
        by_cases he : e.message = ""
        · have hro : readFormatted read i = none := by
            unfold readFormatted
            simp [hr, he]
          simp only [hr, he, bne_self_eq_false, Bool.false_eq_true, if_false]
          simp only [List.filterMap_cons, hro]
          exact ih (i - 1) s acc hf
        · have hro : readFormatted read i = some (formatLog i e) := by
            unfold readFormatted
            simp [hr, he]
          have hbne : (e.message != "") = true := by simp [he]
          simp only [hr, hbne, if_true]
          simp only [List.filterMap_cons, hro]
          rw [ih (i - 1) s (acc ++ [formatLog i e]) hf]
          simp
      | oob =>
        have hro : readFormatted read i = none := by
          unfold readFormatted
          simp [hr]
        simp only [hr]
        simp only [List.filterMap_cons, hro]
        exact ih (i - 1) s acc hf
      | connErr =>
        have hro : readFormatted read i = none := by
          unfold readFormatted
          simp [hr]
        simp only [hr]
        simp only [List.filterMap_cons, hro]
        exact ih (i - 1) s acc hf
    · have hz : (i + 1 - max s 0).toNat = 0 := by omega
      rw [hz]
      show (if s ≤ i ∧ 0 ≤ i then _ else acc) = _
      rw [if_neg hc]
      simp

/-- The tail fetch equals the filterMap of `readFormatted` over the
spec-side index sequence. -/
theorem fetchLatest_eq_filterMap (read : Int → ReadOutcome) (h : Int) :
    fetchLatest read h = (specTailIndices h).filterMap (readFormatted read) := by
  unfold fetchLatest specTailIndices
  have hmax : max (max 0 (h - 99)) 0 = max 0 (h - 99) := by omega
  have := fetchTailLoop_eq_filterMap read 101 h (max 0 (h - 99)) [] (by omega)
  rw [hmax] at this
  rw [this, List.nil_append]

/-- The tail fetch returns at most 100 entries, over any ledger. -/
theorem fetchLatest_length_le (read : Int → ReadOutcome) (h : Int) :
    (fetchLatest read h).length ≤ 100 := by
  rw [fetchLatest_eq_filterMap]
  calc ((specTailIndices h).filterMap (readFormatted read)).length
      ≤ (specTailIndices h).length := List.length_filterMap_le _ _
    _ ≤ 100 := by
        unfold specTailIndices
        rw [List.length_map, List.length_range]
        omega

/-- A formatted entry produced at index i carries that index. -/
theorem readFormatted_index (read : Int → ReadOutcome) (i : Int)
    (e : FormattedLog) (hre : readFormatted read i = some e) : e.index = i := by
  unfold readFormatted at hre
  cases hr : read i with
  | entry a =>
    rw [hr] at hre
    by_cases ha : a.message = ""
    · simp [ha] at hre
    · have hb : (a.message != "") = true := by simp [ha]
      simp only [hb, if_true] at hre
      rw [← Option.some.inj hre]
      rfl
  | oob => rw [hr] at hre; cases hre
  | connErr => rw [hr] at hre; cases hre

/-- Every entry the tail fetch returns is exactly the formatted result of a
populated read at its own index: nothing is padded or invented, and empty
reads contribute nothing. -/
theorem fetchLatest_mem (read : Int → ReadOutcome) (h : Int) :
    ∀ e ∈ fetchLatest read h, readFormatted read e.index = some e := by
  intro e he
  rw [fetchLatest_eq_filterMap] at he
  obtain ⟨a, _, hfa⟩ := List.mem_filterMap.mp he
  rw [readFormatted_index read a e hfa]
  exact hfa

/-- The spec-side index sequence is strictly descending (newest first). -/
theorem specTailIndices_sorted (h : Int) :
    (specTailIndices h).Pairwise (fun a b => b < a) := by
  unfold specTailIndices
  rw [List.pairwise_map]
  refine (List.pairwise_lt_range _).imp ?_
  intro a b hab
  have : (a : Int) < (b : Int) := by exact_mod_cast hab
  simp only [Int.ofNat_eq_natCast]
  omega

/-- Pairwise order is preserved through filterMap when the transformation
respects the relation. -/
theorem pairwise_filterMap_transfer {α β : Type} (f : α → Option β)
    (R : α → α → Prop) (S : β → β → Prop)
    (hf : ∀ a b a' b', R a b → f a = some a' → f b = some b' → S a' b') :
    ∀ l : List α, l.Pairwise R → (l.filterMap f).Pairwise S := by
  intro l
  induction l with
  | nil => intro _; simp
  | cons x xs ih =>
    intro hp
    obtain ⟨hx, hxs⟩ := List.pairwise_cons.mp hp
    cases hfx : f x with
    | none => simpa [List.filterMap_cons, hfx] using ih hxs
    | some b =>
      simp only [List.filterMap_cons, hfx]
      refine List.pairwise_cons.mpr ⟨?_, ih hxs⟩
      intro b' hb'
      obtain ⟨a, ha, hfa⟩ := List.mem_filterMap.mp hb'
      exact hf x a b b' (hx a ha) hfx hfa

/-- The tail fetch lists entries newest first: indices strictly decrease. -/
theorem fetchLatest_sorted (read : Int → ReadOutcome) (h : Int) :
    (fetchLatest read h).Pairwise (fun a b => b.index < a.index) := by
  rw [fetchLatest_eq_filterMap]
  refine pairwise_filterMap_transfer (readFormatted read) (fun a b => b < a) _
    ?_ (specTailIndices h) (specTailIndices_sorted h)
  intro a b a' b' hab ha hb
  rw [readFormatted_index read a a' ha, readFormatted_index read b b' hb]
  exact hab

/-- The handler's `slice(0, 100)` is the identity here, since the fetch
already returns at most 100 entries. -/
theorem getLogsHandler_logs (read : Int → ReadOutcome) :
    (getLogsHandler read).logs = fetchLatest read (locateHighestIndex read).1 := by
  unfold getLogsHandler
  exact List.take_of_length_le (fetchLatest_length_le read _)

/-- The reported total count is always the discovered highest index plus
one. -/
theorem getLogsHandler_count (read : Int → ReadOutcome) :
    (getLogsHandler read).count = (locateHighestIndex read).1 + 1 := rfl

/-!
Part 2: the ingestion pipeline of services/stream-logs.js.

The module-level mutable variables of stream-logs.js become fields of an
explicit state record.  Times are integer millisecond clock values
(`Date.now()`).  The awaited `fetch` call is modelled by an `ApiOutcome`
describing how the HTTP request to the backend resolves; the code before
the await and the code after it are modelled as two separate functions so
that interleavings of concurrent in-flight sends can be expressed.
-/

/-- JS `String.prototype.trim()`: drop leading and trailing whitespace.
Implemented over the character list so that the kernel can evaluate it on
concrete strings (the whitespace classes of JS and `Char.isWhitespace`
agree on the ASCII whitespace the claims exercise). -/
def jsTrim (s : String) : String :=
  ⟨((s.data.dropWhile Char.isWhitespace).reverse.dropWhile
      Char.isWhitespace).reverse⟩

/-- The module-level mutable state of stream-logs.js (lines 7-26). -/
structure StreamState where
  serverAvailable : Bool
  lastErrorTime : Int
  lastSentTime : Int
  logQueue : List String
  isStopped : Bool
  dailyLogCount : Nat
  dailyResetTime : Int
deriving DecidableEq, Repr

/-- ERROR_THROTTLE_MS = 5000 (stream-logs.js line 12). -/
def ERROR_THROTTLE_MS : Int := 5000

/-- SEND_INTERVAL_MS = 1000 (stream-logs.js line 16). -/
def SEND_INTERVAL_MS : Int := 1000

/-- MAX_QUEUE_SIZE = 50 (stream-logs.js line 18). -/
def MAX_QUEUE_SIZE : Nat := 50

/-- MAX_LOGS_PER_DAY = 1000 (stream-logs.js line 26). -/
def MAX_LOGS_PER_DAY : Nat := 1000

/-- The 24-hour quota window length in milliseconds, `24 * 60 * 60 * 1000`. -/
def dayMillis : Int := 24 * 60 * 60 * 1000

/-- The initial module state at load time `t0` (stream-logs.js lines 7-26):
server assumed available, counters zero, queue empty, reset time one day
ahead. -/
def initialStreamState (t0 : Int) : StreamState :=
  { serverAvailable := true
    lastErrorTime := 0
    lastSentTime := 0
    logQueue := []
    isStopped := false
    dailyLogCount := 0
    dailyResetTime := t0 + dayMillis }

/-- `queueLogForSending(message)` (stream-logs.js lines 29-42), state part:
refuse when stopped; when the queue already holds `MAX_QUEUE_SIZE` items,
`shift()` removes the oldest (front) before the new message is pushed at
the back.  The synchronous `processLogQueue()` call it makes is modelled
separately as a pipeline event. -/
def queueLogForSending (st : StreamState) (message : String) : StreamState :=
  if st.isStopped then st
  else
    let q := if MAX_QUEUE_SIZE ≤ st.logQueue.length then st.logQueue.tail
             else st.logQueue
    { st with logQueue := q ++ [message] }

/-- `processLogQueue()` invoked when `Date.now()` reads `now`
(stream-logs.js lines 45-66): if less than SEND_INTERVAL_MS elapsed since
the last send, do nothing now (the JS schedules a later wake-up, which the
trace model represents as a future event); otherwise shift one message off
the queue, stamp `lastSentTime`, and dispatch it. -/
def processLogQueue (st : StreamState) (now : Int) : StreamState × Option String :=
  if now - st.lastSentTime < SEND_INTERVAL_MS then (st, none)
  else
    match st.logQueue with
    | [] => (st, none)
    | m :: rest => ({ st with logQueue := rest, lastSentTime := now }, some m)

/-- How the awaited HTTP POST of `sendLogToBlockchain` resolves:
`response.ok`, a non-ok response (API-level error), a thrown fetch error of
connectivity class (`ECONNREFUSED` / `fetch failed`), or another thrown
network error. -/
inductive ApiOutcome where
  | ok
  | apiError
  | connError
  | otherError
deriving DecidableEq, Repr

/-- Console messages the service can emit on the send path. -/
inductive Notice where
  | dailyLimit
  | reconnected
  | apiErr
  | serverDown
  | networkErr
deriving DecidableEq, Repr

/-- Result of the synchronous prefix of `sendLogToBlockchain`. -/
structure PreOutcome where
  st : StreamState
  fetches : Bool
  notes : List (Int × Notice)
  earlyReturn : Option (Option Bool)
deriving DecidableEq, Repr

/-- The synchronous prefix of `sendLogToBlockchain(message)` up to the
`await fetch` (stream-logs.js lines 69-106), entered when `Date.now()`
reads `now`: return false when stopped; reset the daily counter when the
window has elapsed; refuse when the daily limit is reached, logging the
refusal whenever `hoursSinceReset % 1 === 0` (verbatim from line 87 -- an
integer modulo 1 is always 0); skip empty or whitespace-only messages; and
otherwise issue the HTTP POST.  `fetches = true` means the request reaches
the backend, which is what triggers `estimateGas` there. -/
def sendPreFetch (st0 : StreamState) (message : String) (now : Int) : PreOutcome :=
  if st0.isStopped then ⟨st0, false, [], some (some false)⟩
  else
    let st1 := if st0.dailyResetTime ≤ now then
                 { st0 with dailyLogCount := 0, dailyResetTime := now + dayMillis }
               else st0
    if MAX_LOGS_PER_DAY ≤ st1.dailyLogCount then
      let hoursSinceReset := (now - (st1.dailyResetTime - dayMillis)) / 3600000
      ⟨st1, false,
        if hoursSinceReset % 1 = 0 then [(now, .dailyLimit)] else [],
        some (some false)⟩
    else if jsTrim message = "" then ⟨st1, false, [], some none⟩
    else ⟨st1, true, [], none⟩

/-- The continuation of `sendLogToBlockchain` after the awaited fetch
resolves (stream-logs.js lines 108-142), running when `Date.now()` reads
`now2`: on `response.ok` increment the daily counter and, if the server was
marked unavailable, emit the recovery notice and mark it available; on a
non-ok response emit the API error subject to the shared throttle; on a
connectivity-class thrown error emit the outage notice when the server was
considered available or the throttle window has passed, marking the server
unavailable; any other thrown error is logged unthrottled. -/
def sendPostFetch (st : StreamState) (now2 : Int) (api : ApiOutcome) :
    StreamState × List (Int × Notice) × Bool :=
  match api with
  | .ok =>
    let st1 := { st with dailyLogCount := st.dailyLogCount + 1 }
    if st1.serverAvailable then (st1, [], true)
    else ({ st1 with serverAvailable := true }, [(now2, .reconnected)], true)
  | .apiError =>
    if ERROR_THROTTLE_MS < now2 - st.lastErrorTime then
      ({ st with lastErrorTime := now2 }, [(now2, .apiErr)], false)
    else (st, [], false)
  | .connError =>
    if st.serverAvailable = true ∨ ERROR_THROTTLE_MS < now2 - st.lastErrorTime then
      ({ st with serverAvailable := false, lastErrorTime := now2 },
        [(now2, .serverDown)], false)
    else (st, [], false)
  | .otherError => (st, [(now2, .networkErr)], false)

/-- The whole of `sendLogToBlockchain(message)` as one call: the prefix
runs at time `now`; if it issues the fetch, the continuation runs at time
`now2` with outcome `api`.  Returns the final state, the notices emitted
(with their times) and the JS return value (`none` models the bare
`return;`). -/
def sendLogToBlockchain (st0 : StreamState) (message : String) (now now2 : Int)
    (api : ApiOutcome) : StreamState × List (Int × Notice) × Option Bool :=
  let pre := sendPreFetch st0 message now
  match pre.earlyReturn with
  | some r => (pre.st, pre.notes, r)
  | none =>
    let post := sendPostFetch pre.st now2 api
    (post.1, pre.notes ++ post.2.1, some post.2.2)

example : (sendPreFetch (initialStreamState 0) "hello" 5).fetches = true := by decide
example : (sendLogToBlockchain (initialStreamState 0) "hello" 5 9 .ok).1.dailyLogCount
    = 1 := by decide
example : (sendLogToBlockchain (initialStreamState 0) "   " 5 9 .ok).2.2 = none := by
  decide

/-! ### Trace machinery for the pipeline -/

/-- Events driving the queue and rate gate: a complete log line arriving on
the stream (stdout handler lines 151-169: `queueLogForSending` followed by
its synchronous `processLogQueue()` call), a scheduled `processLogQueue`
wake-up (the `setTimeout` callbacks), and the SIGINT/SIGTERM stop handler
(lines 200-225: set `isStopped` and clear the queue).  Each event carries
the `Date.now()` reading at which it runs. -/
inductive PipeEvent where
  | arrive (now : Int) (m : String)
  | wake (now : Int)
  | halt (now : Int)
deriving DecidableEq, Repr

/-- The clock reading of an event. -/
def eventTime : PipeEvent → Int
  | .arrive now _ => now
  | .wake now => now
  | .halt now => now

/-- One event step: returns the new state and the dispatched message with
its dispatch time, if any. -/
def pipeStep (st : StreamState) : PipeEvent → StreamState × Option (Int × String)
  | .arrive now m =>
    let st1 := queueLogForSending st m
    let r := processLogQueue st1 now
    (r.1, r.2.map (fun msg => (now, msg)))
  | .wake now =>
    let r := processLogQueue st now
    (r.1, r.2.map (fun msg => (now, msg)))
  | .halt _ => ({ st with isStopped := true, logQueue := [] }, none)

/-- Run a list of events, collecting every dispatched message with its
dispatch time, in order. -/
def runPipe (st : StreamState) : List PipeEvent → StreamState × List (Int × String)
  | [] => (st, [])
  | e :: es =>
    let r := pipeStep st e
    let rest := runPipe r.1 es
    (rest.1, r.2.toList ++ rest.2)

/-- Event times are nondecreasing and bounded below by `lo` (the JS clock
never goes backwards between event-loop turns). -/
def timesMono (lo : Int) : List PipeEvent → Prop
  | [] => True
  | e :: es => lo ≤ eventTime e ∧ timesMono (eventTime e) es

/-- `timesMono` weakens to any smaller lower bound. -/
theorem timesMono_mono (lo lo' : Int) (hle : lo' ≤ lo) :
    ∀ evs : List PipeEvent, timesMono lo evs → timesMono lo' evs := by
  intro evs
  cases evs with
  | nil => intro _; trivial
  | cons e es => intro hm; exact ⟨by have := hm.1; omega, hm.2⟩

/-- `queueLogForSending` never touches the rate-gate stamp or the stop
flag. -/
theorem queueLogForSending_frame (st : StreamState) (m : String) :
    (queueLogForSending st m).lastSentTime = st.lastSentTime ∧
    (queueLogForSending st m).isStopped = st.isStopped := by
  unfold queueLogForSending
  by_cases h : st.isStopped <;> simp [h]

/-- Enqueuing preserves the queue bound `MAX_QUEUE_SIZE`. -/
theorem queueLogForSending_length (st : StreamState) (m : String)
    (hlen : st.logQueue.length ≤ MAX_QUEUE_SIZE) :
    (queueLogForSending st m).logQueue.length ≤ MAX_QUEUE_SIZE := by
  unfold queueLogForSending
  by_cases h : st.isStopped
  · rw [if_pos h]; exact hlen
  · rw [if_neg h]
    simp only [List.length_append, List.length_singleton]
    by_cases hq : MAX_QUEUE_SIZE ≤ st.logQueue.length
    · rw [if_pos hq]
      have := List.length_tail st.logQueue
      unfold MAX_QUEUE_SIZE at *
      omega
    · rw [if_neg hq]
      unfold MAX_QUEUE_SIZE at *
      omega

/-- Overflow behaviour of `queueLogForSending` while running: with the
queue at (or beyond) capacity, the oldest element -- the front, which
`shift()` removes -- is evicted and the new message is appended at the
back. -/
theorem queueLogForSending_evict (st : StreamState) (m : String)
    (hstop : st.isStopped = false) (hfull : MAX_QUEUE_SIZE ≤ st.logQueue.length) :
    (queueLogForSending st m).logQueue = st.logQueue.tail ++ [m] := by
  unfold queueLogForSending
  rw [if_neg (by simp [hstop]), if_pos hfull]

/-- While running, the newly arrived message is always the last element of
the queue afterwards: the new line is never the one discarded. -/
theorem queueLogForSending_admits (st : StreamState) (m : String)
    (hstop : st.isStopped = false) :
    (queueLogForSending st m).logQueue.getLast? = some m := by
  unfold queueLogForSending
  rw [if_neg (by simp [hstop])]
  exact List.getLast?_concat _

/-- A dispatch-less `processLogQueue` call leaves the state unchanged. -/
theorem processLogQueue_none (st : StreamState) (now : Int)
    (h : (processLogQueue st now).2 = none) :
    (processLogQueue st now).1 = st := by
  unfold processLogQueue at *
  by_cases ht : now - st.lastSentTime < SEND_INTERVAL_MS
  · rw [if_pos ht]
  · rw [if_neg ht] at h ⊢
    cases hq : st.logQueue with
    | nil => rfl
    | cons m rest => rw [hq] at h; exact Option.noConfusion h

/-- A dispatching `processLogQueue` call can only fire once the full send
interval has elapsed, and it stamps `lastSentTime` with the dispatch
time. -/
theorem processLogQueue_some (st : StreamState) (now : Int) (m : String)
    (h : (processLogQueue st now).2 = some m) :
    st.lastSentTime + SEND_INTERVAL_MS ≤ now ∧
    (processLogQueue st now).1.lastSentTime = now ∧
    (processLogQueue st now).1.logQueue = st.logQueue.tail := by
  unfold processLogQueue at *
  by_cases ht : now - st.lastSentTime < SEND_INTERVAL_MS
  · rw [if_pos ht] at h; cases h
  · rw [if_neg ht] at h ⊢
    cases hq : st.logQueue with
    | nil => rw [hq] at h; exact Option.noConfusion h
    | cons m0 rest => exact ⟨by omega, rfl, rfl⟩

/-- Every pipeline event preserves the queue bound. -/
theorem pipeStep_queue_le (st : StreamState) (e : PipeEvent)
    (h : st.logQueue.length ≤ MAX_QUEUE_SIZE) :
    (pipeStep st e).1.logQueue.length ≤ MAX_QUEUE_SIZE := by
  cases e with
  | arrive now m =>
    show (processLogQueue (queueLogForSending st m) now).1.logQueue.length ≤ _
    have h1 := queueLogForSending_length st m h
    cases hd : (processLogQueue (queueLogForSending st m) now).2 with
    | none => rw [processLogQueue_none _ _ hd]; exact h1
    | some msg =>
      rw [(processLogQueue_some _ _ _ hd).2.2]
      have := List.length_tail (queueLogForSending st m).logQueue
      omega
  | wake now =>
    show (processLogQueue st now).1.logQueue.length ≤ _
    cases hd : (processLogQueue st now).2 with
    | none => rw [processLogQueue_none _ _ hd]; exact h
    | some msg =>
      rw [(processLogQueue_some _ _ _ hd).2.2]
      have := List.length_tail st.logQueue
      omega
  | halt now => simp [pipeStep, MAX_QUEUE_SIZE]

/-- Along any event trace the queue never exceeds `MAX_QUEUE_SIZE`.
Since every prefix of a trace is itself a trace, this bounds the queue at
every instant. -/
theorem runPipe_queue_le (evs : List PipeEvent) :
    ∀ st : StreamState, st.logQueue.length ≤ MAX_QUEUE_SIZE →
      ((runPipe st evs).1).logQueue.length ≤ MAX_QUEUE_SIZE := by
  induction evs with
  | nil => intro st h; exact h
  | cons e es ih =>
    intro st h
    exact ih _ (pipeStep_queue_le st e h)

/-- The SIGINT/SIGTERM handler leaves the rate-gate stamp unchanged. -/
theorem pipeStep_halt_frame (st : StreamState) (now : Int) :
    (pipeStep st (.halt now)).1.lastSentTime = st.lastSentTime ∧
    (pipeStep st (.halt now)).2 = none := ⟨rfl, rfl⟩

/-- Rate-gate soundness along any trace: starting from the stamp
`st.lastSentTime`, consecutive dispatch times are always at least
`SEND_INTERVAL_MS` apart, whatever the queue depth or event pattern. -/
theorem runPipe_rateGate (evs : List PipeEvent) :
    ∀ st : StreamState, timesMono st.lastSentTime evs →
      List.Chain' (fun a b => a + SEND_INTERVAL_MS ≤ b)
        (st.lastSentTime :: ((runPipe st evs).2.map Prod.fst)) := by
  induction evs with
  | nil => intro st _; exact List.chain'_singleton _
  | cons e es ih =>
    intro st hm
    obtain ⟨hle, hm2⟩ := hm
    show List.Chain' _ (st.lastSentTime ::
      (((pipeStep st e).2.toList ++ (runPipe (pipeStep st e).1 es).2).map Prod.fst))
    cases e with
    | arrive now m =>
      have hframe := queueLogForSending_frame st m
      cases hd : (processLogQueue (queueLogForSending st m) now).2 with
      | none =>
        have hst : (pipeStep st (.arrive now m)).1 = queueLogForSending st m := by
          show (processLogQueue (queueLogForSending st m) now).1 = _
          exact processLogQueue_none _ _ hd
        have hdisp : (pipeStep st (.arrive now m)).2 = none := by
          show ((processLogQueue (queueLogForSending st m) now).2.map _) = none
          rw [hd]; rfl
        rw [hdisp, hst]
        have := ih (queueLogForSending st m)
          (timesMono_mono _ _ (by rw [hframe.1]; exact hle) es hm2)
        rw [hframe.1] at this
        exact this
      | some msg =>
        obtain ⟨hgap, hstamp, _⟩ := processLogQueue_some _ _ _ hd
        have hdisp : (pipeStep st (.arrive now m)).2 = some (now, msg) := by
          show ((processLogQueue (queueLogForSending st m) now).2.map _) = _
          rw [hd]; rfl
        rw [hdisp]
        have hst2 : (pipeStep st (.arrive now m)).1.lastSentTime = now := by
          show (processLogQueue (queueLogForSending st m) now).1.lastSentTime = now
          exact hstamp
        have htail := ih (pipeStep st (.arrive now m)).1 (by rw [hst2]; exact hm2)
        rw [hst2] at htail
        exact List.Chain'.cons (by rw [hframe.1] at hgap; exact hgap) htail
    | wake now =>
      cases hd : (processLogQueue st now).2 with
      | none =>
        have hst : (pipeStep st (.wake now)).1 = st := processLogQueue_none _ _ hd
        have hdisp : (pipeStep st (.wake now)).2 = none := by
          show ((processLogQueue st now).2.map _) = none
          rw [hd]; rfl
        rw [hdisp, hst]
        exact ih st (timesMono_mono _ _ hle es hm2)
      | some msg =>
        obtain ⟨hgap, hstamp, _⟩ := processLogQueue_some _ _ _ hd
        have hdisp : (pipeStep st (.wake now)).2 = some (now, msg) := by
          show ((processLogQueue st now).2.map _) = _
          rw [hd]; rfl
        rw [hdisp]
        have htail := ih (pipeStep st (.wake now)).1 (by
          show timesMono (processLogQueue st now).1.lastSentTime es
          rw [hstamp]; exact hm2)
        have hst2 : (pipeStep st (.wake now)).1.lastSentTime = now := hstamp
        rw [hst2] at htail
        exact List.Chain'.cons hgap htail
    | halt now =>
      have hdisp : (pipeStep st (.halt now)).2 = none := rfl
      have hst : (pipeStep st (.halt now)).1.lastSentTime = st.lastSentTime := rfl
      rw [hdisp]
      have := ih (pipeStep st (.halt now)).1
        (by rw [hst]; exact timesMono_mono _ _ hle es hm2)
      rw [hst] at this
      exact this

/-- A chained lower-bound gap propagates from the head to every element. -/
theorem chain_gap_head (c : Int) (hc : 0 ≤ c) :
    ∀ (l : List Int) (x : Int), List.Chain (fun a b => a + c ≤ b) x l →
      ∀ y ∈ l, x + c ≤ y := by
  intro l
  induction l with
  | nil => intro x _ y hy; cases hy
  | cons z l ih =>
    intro x hch y hy
    rw [List.chain_cons] at hch
    rcases List.mem_cons.mp hy with rfl | hy2
    · exact hch.1
    · have := ih z hch.2 y hy2
      omega

/-- A chain of minimum gaps yields the gap pairwise between all pairs, in
order. -/
theorem chain_gap_pairwise (c : Int) (hc : 0 ≤ c) :
    ∀ l : List Int, List.Chain' (fun a b => a + c ≤ b) l →
      l.Pairwise (fun a b => a + c ≤ b) := by
  intro l
  induction l with
  | nil => intro _; exact List.Pairwise.nil
  | cons x l ih =>
    intro hch
    have hch2 : List.Chain (fun a b => a + c ≤ b) x l := hch
    refine List.pairwise_cons.mpr ⟨chain_gap_head c hc l x hch2, ih ?_⟩
    cases l with
    | nil => trivial
    | cons z l2 => exact (List.chain_cons.mp hch2).2

/-! ### Traces of sendLogToBlockchain calls -/

/-- One complete `sendLogToBlockchain` invocation: the clock at entry, the
clock when the awaited fetch resolves, and how it resolves. -/
structure SendCall where
  now : Int
  now2 : Int
  api : ApiOutcome
deriving DecidableEq, Repr

/-- Run a sequence of complete send calls for a fixed message, collecting
every console notice with its emission time, in order. -/
def runSends (st : StreamState) (msg : String) :
    List SendCall → StreamState × List (Int × Notice)
  | [] => (st, [])
  | c :: cs =>
    let r := sendLogToBlockchain st msg c.now c.now2 c.api
    let rest := runSends r.1 msg cs
    (rest.1, r.2.1 ++ rest.2)

/-- The times of the outage notices (`Server not available`) in a notice
trace. -/
def outageTimes (notes : List (Int × Notice)) : List Int :=
  (notes.filter (fun p => p.2 == Notice.serverDown)).map Prod.fst

/-! ### Interleaved in-flight sends

`processLogQueue` fires `sendLogToBlockchain(message)` without awaiting it
(stream-logs.js line 57), so several sends can be in flight at once while
each `await fetch` is pending.  JS is single-threaded, so the prefix before
the await and the continuation after it are each atomic; an execution is an
interleaving of these segments. -/

/-- The pipeline state plus the number of fetches currently in flight. -/
structure PipelineWorld where
  st : StreamState
  inflight : Nat
deriving DecidableEq, Repr

/-- Atomic segments of interleaved sends: `dispatch` runs the synchronous
prefix of a `sendLogToBlockchain` call (possibly issuing a fetch);
`settleOk` and `settleConn` resolve one pending fetch and run the
continuation. -/
inductive InflightEvent where
  | dispatch (now : Int) (m : String)
  | settleOk (now2 : Int)
  | settleConn (now2 : Int)
deriving DecidableEq, Repr

/-- One interleaving step. -/
def inflightStep (w : PipelineWorld) : InflightEvent → PipelineWorld
  | .dispatch now m =>
    let pre := sendPreFetch w.st m now
    { st := pre.st, inflight := w.inflight + (if pre.fetches then 1 else 0) }
  | .settleOk now2 =>
    if w.inflight = 0 then w
    else { st := (sendPostFetch w.st now2 .ok).1, inflight := w.inflight - 1 }
  | .settleConn now2 =>
    if w.inflight = 0 then w
    else { st := (sendPostFetch w.st now2 .connError).1, inflight := w.inflight - 1 }

/-- Run an interleaving of send segments. -/
def runInflight (w : PipelineWorld) (evs : List InflightEvent) : PipelineWorld :=
  evs.foldl inflightStep w

/-! ### The manual submission endpoint -/

/-- A JSON value for the `message` field of a POST /add-log body: a string,
or any non-string value (number, boolean, null, object), or the field being
absent (`undefined`). -/
inductive JsValue where
  | str (s : String)
  | number (n : Int)
  | boolean (b : Bool)
  | null
  | undefined
  | object
deriving DecidableEq, Repr

/-- What the POST /add-log handler does with a request body
(server.js lines 371-399).  The guard
`if (!message || typeof message !== 'string')` rejects with 400 exactly
when the field is absent, not a string, or the empty string (the only falsy
string); otherwise the handler calls `estimateGas` for `addLog(message)`
and then sends `addLog(message)` -- with the message exactly as submitted,
no trimming. -/
structure AddLogAction where
  rejected : Bool
  estimateCalled : Bool
  appended : Option String
deriving DecidableEq, Repr

/-- Model of the validation and ledger interaction of POST /add-log. -/
def addLogHandler : JsValue → AddLogAction
  | .str s => if s = "" then ⟨true, false, none⟩ else ⟨false, true, some s⟩
  | _ => ⟨true, false, none⟩

/-- The stdout data handler of stream-logs.js (lines 151-169) only queues a
complete line when `line.trim()` is truthy: blank and whitespace-only lines
are discarded before queuing. -/
def linesQueued (lines : List String) : List String :=
  lines.filter (fun l => jsTrim l != "")

example : addLogHandler (.str " ") = ⟨false, true, some " "⟩ := by decide
example : linesQueued [" ", "a"] = ["a"] := by decide
example : (runInflight ⟨{ (initialStreamState 0) with dailyLogCount := 999 }, 0⟩
    [.dispatch 0 "a", .dispatch 1000 "b", .settleOk 1500, .settleOk 2500]).st.dailyLogCount
    = 1001 := by decide

/-! ### Helper lemmas on the send path -/

/-- The synchronous prefix never touches availability, the error throttle
stamp, the stop flag, the queue or the rate-gate stamp: it only reads the
clock and the quota fields. -/
theorem sendPreFetch_frame (st : StreamState) (msg : String) (now : Int) :
    (sendPreFetch st msg now).st.serverAvailable = st.serverAvailable ∧
    (sendPreFetch st msg now).st.lastErrorTime = st.lastErrorTime ∧
    (sendPreFetch st msg now).st.isStopped = st.isStopped := by
  unfold sendPreFetch
  dsimp only
  split_ifs <;> exact ⟨rfl, rfl, rfl⟩

/-- While running with quota headroom and a non-blank message, the prefix
always reaches the fetch, emits nothing, and keeps the quota count below
the maximum (a reset only lowers it to zero). -/
theorem sendPreFetch_fetches (st : StreamState) (msg : String) (now : Int)
    (hstop : st.isStopped = false) (hcount : st.dailyLogCount < MAX_LOGS_PER_DAY)
    (hmsg : ¬ jsTrim msg = "") :
    (sendPreFetch st msg now).earlyReturn = none ∧
    (sendPreFetch st msg now).fetches = true ∧
    (sendPreFetch st msg now).notes = [] ∧
    (sendPreFetch st msg now).st.dailyLogCount < MAX_LOGS_PER_DAY := by
  unfold sendPreFetch
  rw [if_neg (by simp [hstop])]
  by_cases hreset : st.dailyResetTime ≤ now
  · simp only [if_pos hreset]
    rw [if_neg (by unfold MAX_LOGS_PER_DAY; omega)]
    rw [if_neg hmsg]
    exact ⟨rfl, rfl, rfl, by show (0 : Nat) < MAX_LOGS_PER_DAY; decide⟩
  · simp only [if_neg hreset]
    rw [if_neg (by omega)]
    rw [if_neg hmsg]
    exact ⟨rfl, rfl, rfl, hcount⟩

/-- Quota refusal (stream-logs.js lines 84-91): with the window still open
and the counter at the maximum, the call returns false before the fetch --
so no HTTP request and hence no `estimateGas` happens -- emits exactly one
refusal notice (the guard `hoursSinceReset % 1 === 0` is always true), and
leaves the state unchanged. -/
theorem sendPreFetch_quotaRefusal (st : StreamState) (msg : String) (now : Int)
    (hstop : st.isStopped = false) (hwin : now < st.dailyResetTime)
    (hcount : MAX_LOGS_PER_DAY ≤ st.dailyLogCount) :
    sendPreFetch st msg now = ⟨st, false, [(now, .dailyLimit)], some (some false)⟩ := by
  unfold sendPreFetch
  rw [if_neg (by simp [hstop])]
  simp only [if_neg (by omega : ¬ st.dailyResetTime ≤ now)]
  rw [if_pos hcount, if_pos (Int.emod_one _)]

/-- Window reset (stream-logs.js lines 77-81): once the clock passes
`dailyResetTime`, the prefix zeroes the counter, starts a new 24-hour
window, and (for a non-blank message) proceeds to the fetch. -/
theorem sendPreFetch_reset (st : StreamState) (msg : String) (now : Int)
    (hstop : st.isStopped = false) (helapsed : st.dailyResetTime ≤ now)
    (hmsg : ¬ jsTrim msg = "") :
    sendPreFetch st msg now =
      ⟨{ st with dailyLogCount := 0, dailyResetTime := now + dayMillis },
        true, [], none⟩ := by
  unfold sendPreFetch
  rw [if_neg (by simp [hstop])]
  simp only [if_pos helapsed]
  rw [if_neg (by unfold MAX_LOGS_PER_DAY; omega), if_neg hmsg]

/-- Post-fetch on `response.ok` with the server previously marked
unavailable: counter incremented, availability restored, exactly one
recovery notice -- with no throttling condition on it. -/
theorem sendPostFetch_ok_unavail (st : StreamState) (now2 : Int)
    (h : st.serverAvailable = false) :
    sendPostFetch st now2 .ok =
      ({ st with dailyLogCount := st.dailyLogCount + 1, serverAvailable := true },
        [(now2, .reconnected)], true) := by
  unfold sendPostFetch
  rw [if_neg (by simp [h])]

/-- Post-fetch on `response.ok` with the server already available: counter
incremented, no notice. -/
theorem sendPostFetch_ok_avail (st : StreamState) (now2 : Int)
    (h : st.serverAvailable = true) :
    sendPostFetch st now2 .ok =
      ({ st with dailyLogCount := st.dailyLogCount + 1 }, [], true) := by
  unfold sendPostFetch
  rw [if_pos (by simp [h])]

/-- Post-fetch on a connectivity failure with the server still considered
available: the outage notice is emitted unconditionally and the server is
marked unavailable with the throttle stamp set. -/
theorem sendPostFetch_conn_avail (st : StreamState) (now2 : Int)
    (h : st.serverAvailable = true) :
    sendPostFetch st now2 .connError =
      ({ st with serverAvailable := false, lastErrorTime := now2 },
        [(now2, .serverDown)], false) := by
  unfold sendPostFetch
  rw [if_pos (Or.inl h)]

/-- Post-fetch on a connectivity failure during a known outage, within the
throttle window: nothing is emitted and the state is unchanged. -/
theorem sendPostFetch_conn_throttled (st : StreamState) (now2 : Int)
    (h : st.serverAvailable = false)
    (hth : ¬ ERROR_THROTTLE_MS < now2 - st.lastErrorTime) :
    sendPostFetch st now2 .connError = (st, [], false) := by
  unfold sendPostFetch
  rw [if_neg (show
    ¬ (st.serverAvailable = true ∨ ERROR_THROTTLE_MS < now2 - st.lastErrorTime) from
    fun hcon => hcon.elim (fun hA => absurd hA (by simp [h])) (fun hB => hth hB))]

/-- Post-fetch on a connectivity failure during a known outage, after the
throttle window has passed: one outage notice, stamp updated. -/
theorem sendPostFetch_conn_late (st : StreamState) (now2 : Int)
    (hth : ERROR_THROTTLE_MS < now2 - st.lastErrorTime) :
    sendPostFetch st now2 .connError =
      ({ st with serverAvailable := false, lastErrorTime := now2 },
        [(now2, .serverDown)], false) := by
  unfold sendPostFetch
  rw [if_pos (Or.inr hth)]

/-- When the prefix reaches the fetch, the whole call is the prefix state
piped through the post-fetch continuation. -/
theorem sendLogToBlockchain_fetchPath (st : StreamState) (msg : String)
    (now now2 : Int) (api : ApiOutcome)
    (hpre : (sendPreFetch st msg now).earlyReturn = none) :
    sendLogToBlockchain st msg now now2 api =
      ((sendPostFetch (sendPreFetch st msg now).st now2 api).1,
       (sendPreFetch st msg now).notes ++
         (sendPostFetch (sendPreFetch st msg now).st now2 api).2.1,
       some (sendPostFetch (sendPreFetch st msg now).st now2 api).2.2) := by
  unfold sendLogToBlockchain
  dsimp only
  rw [hpre]

/-- When the prefix returns early, the whole call is just the prefix. -/
theorem sendLogToBlockchain_earlyPath (st : StreamState) (msg : String)
    (now now2 : Int) (api : ApiOutcome) (r : Option Bool)
    (hpre : (sendPreFetch st msg now).earlyReturn = some r) :
    sendLogToBlockchain st msg now now2 api =
      ((sendPreFetch st msg now).st, (sendPreFetch st msg now).notes, r) := by
  unfold sendLogToBlockchain
  dsimp only
  rw [hpre]

/-- A prefix that reaches the fetch has emitted nothing. -/
theorem sendPreFetch_none_notes (st : StreamState) (msg : String) (now : Int)
    (h : (sendPreFetch st msg now).earlyReturn = none) :
    (sendPreFetch st msg now).notes = [] := by
  unfold sendPreFetch at h ⊢
  dsimp only at h ⊢
  split_ifs at h ⊢ <;> rfl

/-- The prefix never emits the outage notice (only the quota refusal). -/
theorem sendPreFetch_notes_noOutage (st : StreamState) (msg : String) (now : Int) :
    outageTimes (sendPreFetch st msg now).notes = [] := by
  unfold sendPreFetch outageTimes
  dsimp only
  split_ifs <;> rfl

/-- `outageTimes` distributes over concatenation of notice traces. -/
theorem outageTimes_append (a b : List (Int × Notice)) :
    outageTimes (a ++ b) = outageTimes a ++ outageTimes b := by
  unfold outageTimes
  rw [List.filter_append, List.map_append]

/-- A connectivity failure hitting a server considered available: the call
emits exactly one outage notice and flips the availability state. -/
theorem sendConn_available (st : StreamState) (msg : String) (now now2 : Int)
    (hstop : st.isStopped = false) (havail : st.serverAvailable = true)
    (hcount : st.dailyLogCount < MAX_LOGS_PER_DAY) (hmsg : ¬ jsTrim msg = "") :
    (sendLogToBlockchain st msg now now2 .connError).2.1 = [(now2, Notice.serverDown)] ∧
    (sendLogToBlockchain st msg now now2 .connError).1.serverAvailable = false ∧
    (sendLogToBlockchain st msg now now2 .connError).1.lastErrorTime = now2 ∧
    (sendLogToBlockchain st msg now now2 .connError).1.isStopped = false ∧
    (sendLogToBlockchain st msg now now2 .connError).1.dailyLogCount
      < MAX_LOGS_PER_DAY := by
  obtain ⟨hp1, _, hp3, hp4⟩ := sendPreFetch_fetches st msg now hstop hcount hmsg
  obtain ⟨hf1, _, hf3⟩ := sendPreFetch_frame st msg now
  rw [sendLogToBlockchain_fetchPath st msg now now2 _ hp1,
    sendPostFetch_conn_avail _ now2 (by rw [hf1]; exact havail)]
  refine ⟨by rw [hp3]; rfl, rfl, rfl, ?_, ?_⟩
  · show (sendPreFetch st msg now).st.isStopped = false
    rw [hf3]; exact hstop
  · exact hp4

/-- A connectivity failure during a known outage inside the throttle
window: nothing is emitted and the availability fields are untouched. -/
theorem sendConn_throttled (st : StreamState) (msg : String) (now now2 : Int)
    (hstop : st.isStopped = false) (havail : st.serverAvailable = false)
    (hth : ¬ ERROR_THROTTLE_MS < now2 - st.lastErrorTime)
    (hcount : st.dailyLogCount < MAX_LOGS_PER_DAY) (hmsg : ¬ jsTrim msg = "") :
    (sendLogToBlockchain st msg now now2 .connError).2.1 = [] ∧
    (sendLogToBlockchain st msg now now2 .connError).1.serverAvailable = false ∧
    (sendLogToBlockchain st msg now now2 .connError).1.lastErrorTime
      = st.lastErrorTime ∧
    (sendLogToBlockchain st msg now now2 .connError).1.isStopped = false ∧
    (sendLogToBlockchain st msg now now2 .connError).1.dailyLogCount
      < MAX_LOGS_PER_DAY := by
  obtain ⟨hp1, _, hp3, hp4⟩ := sendPreFetch_fetches st msg now hstop hcount hmsg
  obtain ⟨hf1, hf2, hf3⟩ := sendPreFetch_frame st msg now
  rw [sendLogToBlockchain_fetchPath st msg now now2 _ hp1,
    sendPostFetch_conn_throttled _ now2 (by rw [hf1]; exact havail)
      (by rw [hf2]; exact hth)]
  exact ⟨by rw [hp3]; rfl, by rw [hf1]; exact havail, hf2,
    by rw [hf3]; exact hstop, hp4⟩

/-- The first successful call after a period of unavailability: exactly one
recovery notice, availability restored, quota counter incremented -- with
no throttling condition involved. -/
theorem sendOk_recovery (st : StreamState) (msg : String) (now now2 : Int)
    (hstop : st.isStopped = false) (hunavail : st.serverAvailable = false)
    (hcount : st.dailyLogCount < MAX_LOGS_PER_DAY) (hmsg : ¬ jsTrim msg = "") :
    (sendLogToBlockchain st msg now now2 .ok).2.1 = [(now2, Notice.reconnected)] ∧
    (sendLogToBlockchain st msg now now2 .ok).1.serverAvailable = true ∧
    (sendLogToBlockchain st msg now now2 .ok).2.2 = some true := by
  obtain ⟨hp1, _, hp3, _⟩ := sendPreFetch_fetches st msg now hstop hcount hmsg
  obtain ⟨hf1, _, _⟩ := sendPreFetch_frame st msg now
  rw [sendLogToBlockchain_fetchPath st msg now now2 _ hp1,
    sendPostFetch_ok_unavail _ now2 (by rw [hf1]; exact hunavail)]
  exact ⟨by rw [hp3]; rfl, rfl, rfl⟩

/-- Throttling during a sustained outage: along any trace of calls that all
fail with connectivity errors, consecutive outage notices are always more
than `ERROR_THROTTLE_MS` apart; and when the trace starts with the server
already marked unavailable, the first notice is also more than the
throttle interval after the recorded `lastErrorTime`. -/
theorem runSends_outage_chain (msg : String) :
    ∀ (cs : List SendCall) (st : StreamState),
      (∀ c ∈ cs, c.api = ApiOutcome.connError) →
      List.Chain' (fun a b => a + ERROR_THROTTLE_MS < b)
        (outageTimes (runSends st msg cs).2) ∧
      (st.serverAvailable = false →
        List.Chain' (fun a b => a + ERROR_THROTTLE_MS < b)
          (st.lastErrorTime :: outageTimes (runSends st msg cs).2)) := by
  intro cs
  induction cs with
  | nil =>
    intro st _
    exact ⟨List.chain'_nil, fun _ => List.chain'_singleton _⟩
  | cons c cs ih =>
    intro st hall
    have hc : c.api = ApiOutcome.connError := hall c (List.mem_cons_self c cs)
    have hrest : ∀ x ∈ cs, x.api = ApiOutcome.connError :=
      fun x hx => hall x (List.mem_cons_of_mem _ hx)
    have hrun : (runSends st msg (c :: cs)).2 =
        (sendLogToBlockchain st msg c.now c.now2 c.api).2.1 ++
        (runSends (sendLogToBlockchain st msg c.now c.now2 c.api).1 msg cs).2 := rfl
    rw [hrun, outageTimes_append, hc]
    obtain ⟨hf1, hf2, hf3⟩ := sendPreFetch_frame st msg c.now
    cases hpre : (sendPreFetch st msg c.now).earlyReturn with
    | some r =>
      rw [sendLogToBlockchain_earlyPath _ _ _ _ _ r hpre,
        sendPreFetch_notes_noOutage, List.nil_append]
      have ihx := ih (sendPreFetch st msg c.now).st hrest
      refine ⟨ihx.1, fun hun => ?_⟩
      have h2 := ihx.2 (by rw [hf1]; exact hun)
      rw [hf2] at h2
      exact h2
    | none =>
      rw [sendLogToBlockchain_fetchPath _ _ _ _ _ hpre, outageTimes_append,
        sendPreFetch_notes_noOutage, List.nil_append]
      by_cases hav : st.serverAvailable = true
      · rw [sendPostFetch_conn_avail _ _ (by rw [hf1]; exact hav)]
        have ihx := ih { (sendPreFetch st msg c.now).st with
          serverAvailable := false, lastErrorTime := c.now2 } hrest
        have hchain := ihx.2 rfl
        refine ⟨hchain, fun hun => ?_⟩
        rw [hav] at hun
        exact Bool.noConfusion hun
      · have havF : st.serverAvailable = false := by
          revert hav
          cases st.serverAvailable <;> simp
        by_cases hth : ERROR_THROTTLE_MS < c.now2 - st.lastErrorTime
        · rw [sendPostFetch_conn_late _ _ (by rw [hf2]; exact hth)]
          have ihx := ih { (sendPreFetch st msg c.now).st with
            serverAvailable := false, lastErrorTime := c.now2 } hrest
          have hchain := ihx.2 rfl
          exact ⟨hchain, fun _ => List.Chain'.cons (by omega) hchain⟩
        · rw [sendPostFetch_conn_throttled _ _ (by rw [hf1]; exact havF)
            (by rw [hf2]; exact hth)]
          have ihx := ih (sendPreFetch st msg c.now).st hrest
          refine ⟨ihx.1, fun _ => ?_⟩
          have h2 := ihx.2 (by rw [hf1]; exact havF)
          rw [hf2] at h2
          exact h2

/-! ### The claims -/

/-- Claim C1, amended.  Index discovery computes the exact highest populated
index only up to the hard-coded horizon: on an empty ledger it yields
NotFound (highestIndex -1, reported total count 0, no entries); on a ledger
whose entries occupy exactly indices 0..k it returns exactly k provided
k ≤ 11000 (the coarse ceiling 10000 plus the refinement window 1000); and
the number of read-by-index probe calls is at most 33 (at most 22 coarse
probes plus at most 11 binary probes, 11 = log2 bound for the window of
1001 indices) -- logarithmic in the search window and independent of k,
never one call per existing entry.  The original claim, quantified over
every k, fails at k = 11001; see the counterexample. -/
theorem claim1_index_discovery :
    ((locateHighestIndex emptyRead).1 = -1 ∧
      getLogsHandler emptyRead = ⟨true, 0, 0, []⟩) ∧
    (∀ k : Int, 0 ≤ k → k ≤ 11000 → (locateHighestIndex (denseRead k)).1 = k) ∧
    (∀ k : Int, 0 ≤ k → (locateHighestIndex (denseRead k)).2 ≤ 33) := by
  refine ⟨⟨by decide, by decide⟩, ?_, ?_⟩
  · intro k h1 h2
    exact locateHighestIndex_denseRead k h1 h2
  · intro k hk
    obtain ⟨g1, _, _, _⟩ :=
      probeDown_denseRead k hk 22 10000 (by omega) (by omega) (by omega)
    unfold locateHighestIndex findUpperBound
    rw [if_pos g1]
    have c1 := probeDown_count_le (denseRead k) 22 10000
    have c2 := refineSearch_count_le (denseRead k) 10 1002
      (probeDown (denseRead k) 22 10000).1
      ((probeDown (denseRead k) 22 10000).1 + 1000) (-1)
      (by
        have hpow : (2 : Int) ^ 10 = 1024 := by norm_num
        omega)
    show (probeDown (denseRead k) 22 10000).2 +
      (refineSearch (denseRead k) 1002 (probeDown (denseRead k) 22 10000).1
        ((probeDown (denseRead k) 22 10000).1 + 1000) (-1)).2 ≤ 33
    omega

/-- Witness for C1 at k = 777. -/
theorem claim1_index_discovery_witness :
    (0 : Int) ≤ 777 ∧ (777 : Int) ≤ 11000 ∧
    (locateHighestIndex (denseRead 777)).1 = 777 ∧
    (locateHighestIndex (denseRead 777)).2 ≤ 33 :=
  ⟨by decide, by decide,
   claim1_index_discovery.2.1 777 (by decide) (by decide),
   claim1_index_discovery.2.2 777 (by decide)⟩

/-- Counterexample to C1 as frozen: on the dense ledger with entries at
exactly 0..11001, index discovery returns 11000, not 11001 -- the binary
window tops out at upperBound 10000 + 1000. -/
theorem claim1_ceiling_counterexample :
    (locateHighestIndex (denseRead 11001)).1 = 11000 ∧
    ¬ (locateHighestIndex (denseRead 11001)).1 = 11001 := by
  have h : (locateHighestIndex (denseRead 11001)).1 = 11000 := by decide
  exact ⟨h, by rw [h]; decide⟩

/-- Claim C3.  The claim demands that a connectivity-class read failure be
distinguished from an absent index and surfaced as a retrieval failure.
The code does the opposite: every probe and tail read wraps its call in a
catch that treats any thrown error as "index does not exist", so the
handler's response is invariant under replacing connectivity errors by
absences, and a fully unreachable ledger produces the success response
`{count: 0, logs: []}` -- a silent false negative rather than the
503-class failure the outer catch was meant to produce. -/
theorem claim3_conn_error_conflated :
    getLogsHandler downRead = ⟨true, 0, 0, []⟩ ∧
    (∀ read : Int → ReadOutcome,
      getLogsHandler (maskConnAsAbsent read) = getLogsHandler read) :=
  ⟨by decide, getLogsHandler_mask⟩

set_option maxRecDepth 10000 in
/-- Claim C2.  Given the discovered highest index h, the tail reader
returns exactly the populated reads along the spec's index sequence
h, h-1, ..., max(0, h-99): at most 100 entries, strictly descending
(newest first), skipping any index that reads back empty and never padding
with placeholders (every returned entry is the formatted result of a
populated read at its own index); the reported total count is h + 1.  On
the dense ledger of size 3164 the full handler returns exactly 100 entries
with indices 3163 down to 3064 and count 3164. -/
theorem claim2_tail_reader :
    (∀ read : Int → ReadOutcome,
      (getLogsHandler read).logs =
        (specTailIndices (locateHighestIndex read).1).filterMap (readFormatted read) ∧
      (getLogsHandler read).logs.length ≤ 100 ∧
      (getLogsHandler read).logs.Pairwise (fun a b => b.index < a.index) ∧
      (∀ e ∈ (getLogsHandler read).logs, readFormatted read e.index = some e) ∧
      (getLogsHandler read).count = (locateHighestIndex read).1 + 1) ∧
    getLogsHandler (denseRead 3163) =
      ⟨true, 3164, 100,
        (List.range 100).map (fun j => ⟨3163 - Int.ofNat j, "m", "s", "0"⟩)⟩ := by
  constructor
  · intro read
    refine ⟨?_, ?_, ?_, ?_, rfl⟩
    · rw [getLogsHandler_logs, fetchLatest_eq_filterMap]
    · rw [getLogsHandler_logs]; exact fetchLatest_length_le read _
    · rw [getLogsHandler_logs]; exact fetchLatest_sorted read _
    · rw [getLogsHandler_logs]; exact fetchLatest_mem read _
  · decide

/-- Witness for C2: on the dense ledger 0..3, the entry at index 3 is
returned and is exactly the populated read at its index. -/
theorem claim2_tail_reader_witness :
    ((⟨3, "m", "s", "0"⟩ : FormattedLog) ∈ (getLogsHandler (denseRead 3)).logs) ∧
    readFormatted (denseRead 3) (3 : Int) = some ⟨3, "m", "s", "0"⟩ :=
  ⟨by decide,
   (claim2_tail_reader.1 (denseRead 3)).2.2.2.1 ⟨3, "m", "s", "0"⟩ (by decide)⟩

/-- Claim C4.  With the quota window still open and the counter at exactly
MAX_LOGS_PER_DAY = 1000 successful appends, every dispatch attempt is
refused before any ledger interaction: `sendLogToBlockchain` returns false
without issuing the HTTP POST (so the backend's `estimateGas` is never
invoked) and leaves the state -- including the counter -- unchanged, so
every further attempt is refused the same way.  Once the window elapses,
the counter is reset to zero, a new 24-hour window starts, and a dispatch
with a successful response goes through and records count 1. -/
theorem claim4_daily_quota :
    (∀ (st : StreamState) (msg : String) (now : Int),
      st.isStopped = false → now < st.dailyResetTime →
      st.dailyLogCount = MAX_LOGS_PER_DAY →
      sendPreFetch st msg now =
        ⟨st, false, [(now, .dailyLimit)], some (some false)⟩) ∧
    (∀ (st : StreamState) (msg : String) (now now2 : Int),
      st.isStopped = false → st.dailyResetTime ≤ now → ¬ jsTrim msg = "" →
      (sendLogToBlockchain st msg now now2 .ok).2.2 = some true ∧
      (sendLogToBlockchain st msg now now2 .ok).1.dailyLogCount = 1 ∧
      (sendLogToBlockchain st msg now now2 .ok).1.dailyResetTime
        = now + dayMillis) := by
  constructor
  · intro st msg now h1 h2 h3
    exact sendPreFetch_quotaRefusal st msg now h1 h2 (le_of_eq h3.symm)
  · intro st msg now now2 h1 h2 h3
    have hpre := sendPreFetch_reset st msg now h1 h2 h3
    have hpre1 : (sendPreFetch st msg now).earlyReturn = none := by rw [hpre]
    rw [sendLogToBlockchain_fetchPath st msg now now2 _ hpre1, hpre]
    dsimp only
    by_cases hav : st.serverAvailable = true
    · rw [sendPostFetch_ok_avail
        { st with dailyLogCount := 0, dailyResetTime := now + dayMillis } now2
        (by exact hav)]
      exact ⟨rfl, rfl, rfl⟩
    · have havF : st.serverAvailable = false := by
        revert hav
        cases st.serverAvailable <;> simp
      rw [sendPostFetch_ok_unavail
        { st with dailyLogCount := 0, dailyResetTime := now + dayMillis } now2
        (by exact havF)]
      exact ⟨rfl, rfl, rfl⟩

/-- Witness for C4: quota refusal at count 1000 inside the window, and a
successful dispatch after the window has elapsed. -/
theorem claim4_daily_quota_witness :
    sendPreFetch { initialStreamState 0 with dailyLogCount := 1000 } "x" 5 =
      ⟨{ initialStreamState 0 with dailyLogCount := 1000 }, false,
        [(5, .dailyLimit)], some (some false)⟩ ∧
    ((sendLogToBlockchain { initialStreamState 0 with dailyLogCount := 1000 }
        "x" dayMillis (dayMillis + 1) .ok).2.2 = some true ∧
      (sendLogToBlockchain { initialStreamState 0 with dailyLogCount := 1000 }
        "x" dayMillis (dayMillis + 1) .ok).1.dailyLogCount = 1 ∧
      (sendLogToBlockchain { initialStreamState 0 with dailyLogCount := 1000 }
        "x" dayMillis (dayMillis + 1) .ok).1.dailyResetTime
        = dayMillis + dayMillis) :=
  ⟨claim4_daily_quota.1 _ "x" 5 rfl (by decide) rfl,
   claim4_daily_quota.2 _ "x" dayMillis (dayMillis + 1) rfl (by decide) (by decide)⟩

/-- A concrete state whose queue is exactly at capacity, for the C5
witness. -/
def fullQueueState : StreamState :=
  { initialStreamState 0 with logQueue := List.replicate 50 "old" }

/-- Claim C5.  Along any event trace the pending-line queue holds at most
MAX_QUEUE_SIZE = 50 lines (every prefix of a trace is a trace, so this
bounds the queue at every instant); when a line arrives at a full queue
while the pipeline is running, `queueLogForSending` drops the oldest
(front) line and appends the new one, and the newly arrived line is always
the last element afterwards -- never the one discarded. -/
theorem claim5_bounded_queue :
    (∀ (evs : List PipeEvent) (st : StreamState),
      st.logQueue.length ≤ MAX_QUEUE_SIZE →
      ((runPipe st evs).1).logQueue.length ≤ MAX_QUEUE_SIZE) ∧
    (∀ (st : StreamState) (m : String),
      st.isStopped = false → MAX_QUEUE_SIZE ≤ st.logQueue.length →
      (queueLogForSending st m).logQueue = st.logQueue.tail ++ [m]) ∧
    (∀ (st : StreamState) (m : String),
      st.isStopped = false →
      (queueLogForSending st m).logQueue.getLast? = some m) :=
  ⟨fun evs st h => runPipe_queue_le evs st h,
   queueLogForSending_evict,
   queueLogForSending_admits⟩

/-- Witness for C5 at the full 50-element queue. -/
theorem claim5_bounded_queue_witness :
    (runPipe fullQueueState [.arrive 1500 "new"]).1.logQueue.length
      ≤ MAX_QUEUE_SIZE ∧
    (queueLogForSending fullQueueState "new").logQueue
      = fullQueueState.logQueue.tail ++ ["new"] ∧
    (queueLogForSending fullQueueState "new").logQueue.getLast? = some "new" :=
  ⟨claim5_bounded_queue.1 [.arrive 1500 "new"] fullQueueState (by decide),
   claim5_bounded_queue.2.1 fullQueueState "new" rfl (by decide),
   claim5_bounded_queue.2.2 fullQueueState "new" rfl⟩

/-- Claim C6.  The rate gate admits at most one dispatched append per
SEND_INTERVAL_MS = 1000 ms regardless of queue depth: along any trace of
pipeline events with nondecreasing clock readings, the dispatch times --
starting from the recorded `lastSentTime` -- form a chain with gaps of at
least the send interval, and hence any two dispatch times in the trace are
at least the interval apart. -/
theorem claim6_rate_gate :
    ∀ (st : StreamState) (evs : List PipeEvent),
      timesMono st.lastSentTime evs →
      List.Chain' (fun a b => a + SEND_INTERVAL_MS ≤ b)
        (st.lastSentTime :: ((runPipe st evs).2.map Prod.fst)) ∧
      ((runPipe st evs).2.map Prod.fst).Pairwise
        (fun a b => a + SEND_INTERVAL_MS ≤ b) := by
  intro st evs hm
  have hch := runPipe_rateGate evs st hm
  refine ⟨hch, ?_⟩
  have hpw := chain_gap_pairwise SEND_INTERVAL_MS (by decide) _ hch
  exact (List.pairwise_cons.mp hpw).2

/-- Witness for C6: two line arrivals 100 ms apart produce dispatches 1100
ms apart (the second line waits for the next slot). -/
theorem claim6_rate_gate_witness :
    timesMono (initialStreamState 0).lastSentTime
      [.arrive 1500 "a", .arrive 1600 "b", .wake 2600] ∧
    List.Chain' (fun a b => a + SEND_INTERVAL_MS ≤ b)
      ((initialStreamState 0).lastSentTime ::
        ((runPipe (initialStreamState 0)
          [.arrive 1500 "a", .arrive 1600 "b", .wake 2600]).2.map Prod.fst)) ∧
    ((runPipe (initialStreamState 0)
        [.arrive 1500 "a", .arrive 1600 "b", .wake 2600]).2.map Prod.fst).Pairwise
      (fun a b => a + SEND_INTERVAL_MS ≤ b) :=
  ⟨⟨by decide, by decide, by decide, trivial⟩,
   (claim6_rate_gate (initialStreamState 0)
     [.arrive 1500 "a", .arrive 1600 "b", .wake 2600]
     ⟨by decide, by decide, by decide, trivial⟩).1,
   (claim6_rate_gate (initialStreamState 0)
     [.arrive 1500 "a", .arrive 1600 "b", .wake 2600]
     ⟨by decide, by decide, by decide, trivial⟩).2⟩

/-- Claim C7.  Availability tracking and error throttling: (1) starting
from an available server, three consecutive connectivity failures within
ERROR_THROTTLE_MS = 5000 ms emit exactly one outage notice; (2) during a
sustained outage (every call failing with a connectivity error),
consecutive outage notices are always more than the throttle interval
apart; (3) the first successful call after a period of unavailability
emits exactly one recovery notice and restores availability, with no
throttling condition attached. -/
theorem claim7_availability :
    (∀ (st : StreamState) (msg : String) (t1 t2 t3 : Int),
      st.isStopped = false → st.serverAvailable = true →
      st.dailyLogCount < MAX_LOGS_PER_DAY → ¬ jsTrim msg = "" →
      t1 ≤ t2 → t2 ≤ t3 → t3 ≤ t1 + ERROR_THROTTLE_MS →
      (runSends st msg [⟨t1, t1, .connError⟩, ⟨t2, t2, .connError⟩,
        ⟨t3, t3, .connError⟩]).2 = [(t1, Notice.serverDown)]) ∧
    (∀ (cs : List SendCall) (st : StreamState) (msg : String),
      (∀ c ∈ cs, c.api = ApiOutcome.connError) →
      List.Chain' (fun a b => a + ERROR_THROTTLE_MS < b)
        (outageTimes (runSends st msg cs).2)) ∧
    (∀ (st : StreamState) (msg : String) (now now2 : Int),
      st.isStopped = false → st.serverAvailable = false →
      st.dailyLogCount < MAX_LOGS_PER_DAY → ¬ jsTrim msg = "" →
      (sendLogToBlockchain st msg now now2 .ok).2.1 = [(now2, Notice.reconnected)] ∧
      (sendLogToBlockchain st msg now now2 .ok).1.serverAvailable = true ∧
      (sendLogToBlockchain st msg now now2 .ok).2.2 = some true) := by
  refine ⟨?_, ?_, ?_⟩
  · intro st msg t1 t2 t3 h1 h2 h3 h4 h12 h23 h31
    obtain ⟨e1, e2, e3, e4, e5⟩ := sendConn_available st msg t1 t1 h1 h2 h3 h4
    obtain ⟨f1, f2, f3, f4, f5⟩ := sendConn_throttled
      (sendLogToBlockchain st msg t1 t1 .connError).1 msg t2 t2 e4 e2
      (by rw [e3]; omega) e5 h4
    obtain ⟨g1, _, _, _, _⟩ := sendConn_throttled
      (sendLogToBlockchain (sendLogToBlockchain st msg t1 t1 .connError).1
        msg t2 t2 .connError).1 msg t3 t3 f4 f2
      (by rw [f3, e3]; omega) f5 h4
    show (sendLogToBlockchain st msg t1 t1 .connError).2.1 ++
      ((sendLogToBlockchain (sendLogToBlockchain st msg t1 t1 .connError).1
          msg t2 t2 .connError).2.1 ++
        ((sendLogToBlockchain (sendLogToBlockchain
            (sendLogToBlockchain st msg t1 t1 .connError).1
            msg t2 t2 .connError).1 msg t3 t3 .connError).2.1 ++ [])) =
      [(t1, Notice.serverDown)]
    rw [e1, f1, g1]
    simp
  · intro cs st msg hall
    exact (runSends_outage_chain msg cs st hall).1
  · intro st msg now now2 h1 h2 h3 h4
    exact sendOk_recovery st msg now now2 h1 h2 h3 h4

/-- A state marked unavailable, for the C7 witness. -/
def outageState : StreamState :=
  { initialStreamState 0 with serverAvailable := false }

/-- Witness for C7: three failures at 0, 1000, 2000 ms from the fresh
state; a two-call outage trace; recovery from the unavailable state. -/
theorem claim7_availability_witness :
    (runSends (initialStreamState 0) "x" [⟨0, 0, .connError⟩,
      ⟨1000, 1000, .connError⟩, ⟨2000, 2000, .connError⟩]).2
      = [(0, Notice.serverDown)] ∧
    List.Chain' (fun a b => a + ERROR_THROTTLE_MS < b)
      (outageTimes (runSends (initialStreamState 0) "x"
        [⟨0, 0, .connError⟩, ⟨1000, 1000, .connError⟩]).2) ∧
    ((sendLogToBlockchain outageState "x" 7 8 .ok).2.1
        = [(8, Notice.reconnected)] ∧
      (sendLogToBlockchain outageState "x" 7 8 .ok).1.serverAvailable = true ∧
      (sendLogToBlockchain outageState "x" 7 8 .ok).2.2 = some true) :=
  ⟨claim7_availability.1 (initialStreamState 0) "x" 0 1000 2000 rfl rfl
    (by decide) (by decide) (by decide) (by decide) (by decide),
   claim7_availability.2.1 [⟨0, 0, .connError⟩, ⟨1000, 1000, .connError⟩]
    (initialStreamState 0) "x" (by decide),
   claim7_availability.2.2 outageState "x" 7 8 rfl rfl (by decide) (by decide)⟩

/-- The starting state for the quota race: 999 appends already recorded,
window far from expiring, nothing in flight. -/
def quotaRaceStart : PipelineWorld :=
  ⟨{ initialStreamState 0 with dailyLogCount := 999 }, 0⟩

/-- The racing interleaving: two dispatches pass the quota check (999 <
1000) while the first append is still awaiting its response; both then
succeed. -/
def quotaRaceTrace : List InflightEvent :=
  [.dispatch 0 "a", .dispatch 1000 "b", .settleOk 1500, .settleOk 2500]

/-- Claim C8 fails on the code: the quota check runs before the awaited
fetch and the increment after it, so with appends still in flight when
later dispatches are admitted the daily counter exceeds the documented
maximum -- here reaching 1001 > MAX_LOGS_PER_DAY = 1000 from a state whose
999 count admitted both dispatches. -/
theorem claim8_quota_race :
    (runInflight quotaRaceStart quotaRaceTrace).st.dailyLogCount = 1001 ∧
    MAX_LOGS_PER_DAY < (runInflight quotaRaceStart quotaRaceTrace).st.dailyLogCount ∧
    quotaRaceStart.st.dailyLogCount < MAX_LOGS_PER_DAY :=
  ⟨by decide, by decide, by decide⟩

/-- Claim C9 fails on the code: the guard
`Math.floor(hoursSinceReset) % 1 === 0` is always true, so every rejected
dispatch inside the open window logs the refusal -- one notice per
rejected item, never strictly fewer.  Two rejections 1 ms apart produce
two notices. -/
theorem claim9_refusal_per_item :
    (∀ (st : StreamState) (msg : String) (now : Int),
      st.isStopped = false → now < st.dailyResetTime →
      MAX_LOGS_PER_DAY ≤ st.dailyLogCount →
      (sendPreFetch st msg now).notes = [(now, Notice.dailyLimit)]) ∧
    (runSends { initialStreamState 0 with dailyLogCount := 1000 } "x"
      [⟨0, 0, .ok⟩, ⟨1, 1, .ok⟩]).2
      = [(0, Notice.dailyLimit), (1, Notice.dailyLimit)] := by
  constructor
  · intro st msg now h1 h2 h3
    rw [sendPreFetch_quotaRefusal st msg now h1 h2 h3]
  · decide

/-- Witness for C9 at a concrete exhausted state. -/
theorem claim9_refusal_per_item_witness :
    (sendPreFetch { initialStreamState 0 with dailyLogCount := 1000 } "x" 7).notes
      = [(7, Notice.dailyLimit)] :=
  claim9_refusal_per_item.1 _ "x" 7 rfl (by decide) (by decide)

/-- Whitespace-only messages never reach the fetch in the streaming
service: the guard `!message || !message.trim()` returns early. -/
theorem sendPreFetch_blank (st : StreamState) (s : String) (now : Int)
    (hs : jsTrim s = "") :
    (sendPreFetch st s now).fetches = false := by
  unfold sendPreFetch
  dsimp only
  split_ifs <;> simp_all

/-- Claim C10.  A non-empty whitespace-only string passes the /add-log
validation and the handler attempts the append with the message exactly as
submitted (invoking `estimateGas`, so ledger cost is consumed), while the
ingestion pipeline discards such lines before queuing and its send path
skips them; only an absent, empty-string or non-string message is rejected
synchronously. -/
theorem claim10_whitespace_submission :
    (∀ s : String, s ≠ "" → jsTrim s = "" →
      addLogHandler (.str s) = ⟨false, true, some s⟩ ∧
      linesQueued [s] = [] ∧
      (∀ (st : StreamState) (now : Int), (sendPreFetch st s now).fetches = false)) ∧
    (∀ v : JsValue,
      (addLogHandler v).rejected = true ↔ ¬ ∃ s, v = JsValue.str s ∧ s ≠ "") := by
  constructor
  · intro s hne htrim
    refine ⟨?_, ?_, ?_⟩
    · simp only [addLogHandler]
      rw [if_neg hne]
    · unfold linesQueued
      simp [htrim]
    · intro st now
      exact sendPreFetch_blank st s now htrim
  · intro v
    cases v with
    | str s =>
      by_cases he : s = ""
      · simp only [addLogHandler]
        rw [if_pos he]
        simp [he]
      · simp only [addLogHandler]
        rw [if_neg he]
        refine iff_of_false (by simp) ?_
        intro hno
        exact hno ⟨s, rfl, he⟩
    | number n => simp [addLogHandler]
    | boolean b => simp [addLogHandler]
    | null => simp [addLogHandler]
    | undefined => simp [addLogHandler]
    | object => simp [addLogHandler]

/-- Witness for C10 at the single-space message and the empty-string
body. -/
theorem claim10_whitespace_submission_witness :
    (" " ≠ "" ∧ jsTrim " " = "") ∧
    addLogHandler (.str " ") = ⟨false, true, some " "⟩ ∧
    linesQueued [" "] = [] ∧
    (sendPreFetch (initialStreamState 0) " " 5).fetches = false ∧
    ((addLogHandler (.str "")).rejected = true ↔
      ¬ ∃ s, JsValue.str "" = JsValue.str s ∧ s ≠ "") :=
  ⟨⟨by decide, by decide⟩,
   (claim10_whitespace_submission.1 " " (by decide) (by decide)).1,
   (claim10_whitespace_submission.1 " " (by decide) (by decide)).2.1,
   (claim10_whitespace_submission.1 " " (by decide) (by decide)).2.2
     (initialStreamState 0) 5,
   claim10_whitespace_submission.2 (.str "")⟩
